import Mathlib

/-!
# GolfIQ-YOLO: the NCNN bench bridge

A shallow embedding of `android/bench/src/main/cpp/ncnn_bridge.cpp`, the JNI
bridge behind `com.golfiq.bench.runtime.ncnn.NativeNcnn`, and the properties of
its three entry points `nativeInit`, `nativeRelease` and `nativeRun`.

What the bridge touches is made explicit as a `State`:

* `heap`: the `NcnnHandle` objects that are alive on the C++ heap, keyed by
  their address;
* `log`: what was written to the Android log, in order;
* `jni`: what was asked of the `JNIEnv` (and the reads of the character
  buffers it lent), in program order.

Three things lie outside the source file and are fixed as follows.

* The address `operator new` picks inside `std::make_unique` is not determined
  by the program. It is an input of `nativeInit` (`new_result`); `NewOk` states
  what C++ guarantees of it: not null, a 64-bit address, and not the address of
  an object that is alive. A throwing `operator new` returns to nobody and is
  no transition.
* `delete` on an address that holds no live object is undefined behaviour;
  `nativeRelease` answers `none` there.
* The `JNIEnv` calls do what the JNI documents for their success:
  `GetStringUTFChars` lends the characters of the string, `NewFloatArray` makes
  a new array of the asked length. A call that fails for lack of memory is, as
  a throwing `operator new`, outside the model.

The heap invariant `State.WF` (distinct, non-null, 64-bit addresses) holds in the
initial state and after every admissible call (`step_spec`, `WF_of_run`), so a
hypothesis `s.WF` restricts a statement to the states the bridge can be in.

Pointers are 64-bit addresses (`Nat` below `2 ^ 64`), a `jlong` is an `Int`, and
the two `reinterpret_cast`s are the two's complement reading of the same 64
bits.  A Java string is modelled by its modified UTF-8 rendering, which holds
no zero byte, so that assigning the `const char*` to a `std::string` copies all
of it; a null `jstring`, `jobject` or `jfloatArray` is `none`.  A `jboolean` is a
`Bool`, and the samples of a `jfloatArray` are carried as `Float`s, which the
bridge never inspects.
-/

namespace NcnnBridge

/-! ## Data model -/

/-- The C++ `struct NcnnHandle`. -/
structure NcnnHandle where
  param_asset : String
  bin_asset : String
  use_vulkan : Bool
deriving DecidableEq, Repr

/-- The log tag `kTag`. -/
def kTag : String := "BenchNcnn"

/-- The priority `ANDROID_LOG_DEBUG` of `android/log.h`. -/
def ANDROID_LOG_DEBUG : Nat := 3

/-- One line written by `__android_log_write(prio, tag, msg)`. -/
structure LogEntry where
  prio : Nat
  tag : String
  msg : String
deriving DecidableEq, Repr

/-- The two string arguments of `nativeInit`; each has its own character buffer
(`param_chars`, `bin_chars`). -/
inductive Arg where
  | param_asset
  | bin_asset
deriving DecidableEq, Repr

/-- What the bridge asks of the `JNIEnv`, plus the read of a lent character
buffer by the `std::string` assignment. -/
inductive JniEvent where
  | GetStringUTFChars (arg : Arg)
  | copyChars (arg : Arg)
  | ReleaseStringUTFChars (arg : Arg)
  | NewFloatArray (len : Int)
deriving DecidableEq, Repr

/-- The state the bridge acts on. -/
structure State where
  heap : List (Nat × NcnnHandle)
  log : List LogEntry
  jni : List JniEvent
deriving DecidableEq, Repr

/-- The state of a fresh process: nothing allocated, nothing logged. -/
def State.initial : State := ⟨[], [], []⟩

/-- The addresses of the live handles. -/
def State.live (s : State) : List Nat := s.heap.map Prod.fst

/-- The cast `reinterpret_cast<jlong>(ptr)`: the 64 bits of the address read as
a signed integer. -/
def ptrToJlong (p : Nat) : Int :=
  if p < 2 ^ 63 then (p : Int) else (p : Int) - 2 ^ 64

/-- The cast `reinterpret_cast<NcnnHandle*>(handle_ptr)`: the 64 bits of the
`jlong` read as an address. -/
def jlongToPtr (t : Int) : Nat := (t % 2 ^ 64).toNat

/-- The tokens of the live handles: what `nativeInit` returned for them. -/
def State.tokens (s : State) : List Int := s.live.map ptrToJlong

/-- The handle a token addresses, when the token is the address of a live one. -/
def State.handleOf (s : State) (token : Int) : Option NcnnHandle :=
  s.heap.lookup (jlongToPtr token)

/-- What C++ guarantees of the address `operator new` returns in state `s`. -/
def NewOk (s : State) (p : Nat) : Prop :=
  p ≠ 0 ∧ p < 2 ^ 64 ∧ p ∉ s.live

instance (s : State) (p : Nat) : Decidable (NewOk s p) := by
  unfold NewOk; infer_instance

/-- The invariant of the heap: live objects have distinct, non-null 64-bit
addresses. -/
def State.WF (s : State) : Prop :=
  s.live.Nodup ∧ ∀ p ∈ s.live, p ≠ 0 ∧ p < 2 ^ 64

instance (s : State) : Decidable s.WF := by
  unfold State.WF; infer_instance

/-! ## Platform operations -/

/-- The helper `logd`: one debug line under `kTag`. -/
def logd (s : State) (msg : String) : State :=
  { s with log := s.log ++ [⟨ANDROID_LOG_DEBUG, kTag, msg⟩] }

/-- The call `env->GetStringUTFChars(str, nullptr)`: lends the characters of
the string. -/
def GetStringUTFChars (s : State) (arg : Arg) (str : String) : Option String × State :=
  (some str, { s with jni := s.jni ++ [.GetStringUTFChars arg] })

/-- The call `env->ReleaseStringUTFChars(str, chars)`: hands the buffer back. -/
def ReleaseStringUTFChars (s : State) (arg : Arg) : State :=
  { s with jni := s.jni ++ [.ReleaseStringUTFChars arg] }

/-- The expression `chars ? chars : ""` assigned to a `std::string`: a copy of
the lent characters, read from the buffer, or the empty string. -/
def charsOrEmpty (s : State) (arg : Arg) (chars : Option String) : String × State :=
  match chars with
  | some cs => (cs, { s with jni := s.jni ++ [.copyChars arg] })
  | none => ("", s)

/-- The call `std::make_unique<NcnnHandle>()` when `operator new` returns `p`:
a value-initialised handle at `p`. -/
def make_unique (s : State) (p : Nat) : State :=
  { s with heap := (p, ⟨"", "", false⟩) :: s.heap }

/-- An assignment `handle->field = value` through the pointer `p`. -/
def modify (s : State) (p : Nat) (f : NcnnHandle → NcnnHandle) : State :=
  { s with heap := s.heap.map fun e => if e.1 = p then (e.1, f e.2) else e }

/-- The statement `delete handle`: frees the live object at `p`; undefined
(`none`) when no live object is there. -/
def deleteHandle (s : State) (p : Nat) : Option State :=
  if p ∈ s.live then some { s with heap := s.heap.filter fun e => e.1 ≠ p } else none

/-- The call `env->NewFloatArray(len)`: a new Java array of `len` zeros. -/
def NewFloatArray (s : State) (len : Int) : Option (List Float) × State :=
  (if len < 0 then none else some (List.replicate len.toNat 0.0),
   { s with jni := s.jni ++ [.NewFloatArray len] })

/-! ## The three entry points -/

/-- The entry point `Java_com_golfiq_bench_runtime_ncnn_NativeNcnn_nativeInit`;
`new_result` is the address `operator new` returns. -/
def nativeInit (new_result : Nat) (s : State) (asset_manager : Option Nat)
    (param_asset bin_asset : Option String) (use_vulkan : Bool) : Int × State :=
  let _ := asset_manager
  let (param_chars, s) := match param_asset with
    | some str => GetStringUTFChars s .param_asset str
    | none => (none, s)
  let (bin_chars, s) := match bin_asset with
    | some str => GetStringUTFChars s .bin_asset str
    | none => (none, s)
  let handle := new_result
  let s := make_unique s handle
  let (v, s) := charsOrEmpty s .param_asset param_chars
  let s := modify s handle fun h => { h with param_asset := v }
  let (v, s) := charsOrEmpty s .bin_asset bin_chars
  let s := modify s handle fun h => { h with bin_asset := v }
  let s := modify s handle fun h => { h with use_vulkan := use_vulkan }
  let s := if param_asset.isSome then ReleaseStringUTFChars s .param_asset else s
  let s := if bin_asset.isSome then ReleaseStringUTFChars s .bin_asset else s
  let s := logd s "Initialized NCNN handle (stub)"
  (ptrToJlong handle, s)

/-- The entry point `Java_com_golfiq_bench_runtime_ncnn_NativeNcnn_nativeRelease`. -/
def nativeRelease (s : State) (handle_ptr : Int) : Option State :=
  let handle := jlongToPtr handle_ptr
  if handle ≠ 0 then
    match deleteHandle s handle with
    | some s => some (logd s "Released NCNN handle (stub)")
    | none => none
  else some s

/-- The entry point `Java_com_golfiq_bench_runtime_ncnn_NativeNcnn_nativeRun`;
the handle, the input and both dimensions are cast to `void`. -/
def nativeRun (s : State) (handle_ptr : Int) (input : Option (List Float))
    (width height : Int) : Option (List Float) × State :=
  let _ := handle_ptr
  let _ := input
  let _ := width
  let _ := height
  let result := NewFloatArray s 0
  result

/-! ## Sequences of calls -/

/-- One call across the boundary; an `Open` carries the address `operator new`
returns during it. -/
inductive Call where
  | Open (new_result : Nat) (asset_manager : Option Nat)
      (param_asset bin_asset : Option String) (use_vulkan : Bool)
  | Close (token : Int)
  | Run (token : Int) (input : Option (List Float)) (width height : Int)

/-- The state after one call, `none` when the call is undefined behaviour. -/
def step (s : State) : Call → Option State
  | .Open p am pa ba uv => some (nativeInit p s am pa ba uv).2
  | .Close t => nativeRelease s t
  | .Run t i w h => some (nativeRun s t i w h).2

/-- The state after a sequence of calls. -/
def run (s : State) : List Call → Option State
  | [] => some s
  | c :: cs => (step s c).bind fun s1 => run s1 cs

/-- A call the platform and the caller can make in state `s`: an `Open` whose
address `operator new` may return, a `Close` of the zero sentinel or of a live
token, any `Run`. -/
def callOk (s : State) : Call → Bool
  | .Open p _ _ _ _ => decide (NewOk s p)
  | .Close t => decide (t = 0 ∨ t ∈ s.tokens)
  | .Run _ _ _ _ => true

/-- A sequence of calls each of which can be made in the state it meets. -/
def admissible (s : State) : List Call → Bool
  | [] => true
  | c :: cs => callOk s c && match step s c with
    | some s1 => admissible s1 cs
    | none => false

/-- The token an `Open` call returns. -/
def Call.opens (T : Int) : Call → Bool
  | .Open p _ _ _ _ => decide (ptrToJlong p = T)
  | _ => false

/-- Whether the call is `Close` of the token. -/
def Call.closes (T : Int) : Call → Bool
  | .Close t => decide (t = T)
  | _ => false

/-- The log lines the interface description attributes to a call: one for an
`Open`, one for a `Close` of a non-zero token, none otherwise. -/
def Call.logged : Call → List LogEntry
  | .Open _ _ _ _ _ => [⟨ANDROID_LOG_DEBUG, kTag, "Initialized NCNN handle (stub)"⟩]
  | .Close t => if t ≠ 0 then [⟨ANDROID_LOG_DEBUG, kTag, "Released NCNN handle (stub)"⟩] else []
  | .Run _ _ _ _ => []

/-- The argument an event is about, if any. -/
def JniEvent.arg? : JniEvent → Option Arg
  | .GetStringUTFChars a => some a
  | .copyChars a => some a
  | .ReleaseStringUTFChars a => some a
  | .NewFloatArray _ => none

/-- The events about one string argument, in program order. -/
def eventsOf (a : Arg) (tr : List JniEvent) : List JniEvent :=
  tr.filter fun e => e.arg? = some a

/-- The two-state machine of one token over a sequence of calls, started live
or not: `Close` of the token ends its life, an `Open` returning it starts one. -/
def tokenLive (T : Int) : Bool → List Call → Bool
  | b, [] => b
  | b, c :: cs => tokenLive T ((b && !c.closes T) || c.opens T) cs

/-- A state with one live handle, at address `4096`. -/
def State.sample : State :=
  ⟨[(4096, ⟨"yolo.param", "yolo.bin", false⟩)],
   [⟨ANDROID_LOG_DEBUG, kTag, "Initialized NCNN handle (stub)"⟩], []⟩

/-- The character buffers still lent to the native code after the events `tr`,
when `lent` were lent before them; `none` when the events break the JNI
discipline: a buffer obtained while it is lent, or read or released while it is
not lent. -/
def lentAfter : List Arg → List JniEvent → Option (List Arg)
  | lent, [] => some lent
  | lent, .GetStringUTFChars a :: tr =>
    if a ∈ lent then none else lentAfter (a :: lent) tr
  | lent, .copyChars a :: tr =>
    if a ∈ lent then lentAfter lent tr else none
  | lent, .ReleaseStringUTFChars a :: tr =>
    if a ∈ lent then lentAfter (lent.erase a) tr else none
  | lent, .NewFloatArray _ :: tr => lentAfter lent tr

/-- A state with two live handles, at the addresses `4096` and `8192`. -/
def State.pair : State :=
  ⟨[(8192, ⟨"pose.param", "pose.bin", true⟩), (4096, ⟨"yolo.param", "yolo.bin", false⟩)],
   [⟨ANDROID_LOG_DEBUG, kTag, "Initialized NCNN handle (stub)"⟩,
    ⟨ANDROID_LOG_DEBUG, kTag, "Initialized NCNN handle (stub)"⟩], []⟩

/-! ## Casts -/

theorem jlongToPtr_ptrToJlong (p : Nat) (h : p < 2 ^ 64) : jlongToPtr (ptrToJlong p) = p := by
  unfold jlongToPtr ptrToJlong
  split <;> omega

theorem ptrToJlong_eq_zero_iff (p : Nat) (h : p < 2 ^ 64) : ptrToJlong p = 0 ↔ p = 0 := by
  unfold ptrToJlong
  split <;> omega

theorem ptrToJlong_inj (p q : Nat) (hp : p < 2 ^ 64) (hq : q < 2 ^ 64)
    (h : ptrToJlong p = ptrToJlong q) : p = q := by
  have := congrArg jlongToPtr h
  rwa [jlongToPtr_ptrToJlong p hp, jlongToPtr_ptrToJlong q hq] at this

/-! ## Heap lemmas -/

theorem map_modify_fresh (heap : List (Nat × NcnnHandle)) (p : Nat)
    (g : Nat × NcnnHandle → Nat × NcnnHandle) (h : p ∉ heap.map Prod.fst) :
    heap.map (fun e => if e.1 = p then g e else e) = heap := by
  induction heap with
  | nil => rfl
  | cons e es ih =>
    simp only [List.map_cons, List.mem_cons, not_or] at h
    have he : ¬ e.1 = p := fun h1 => h.1 h1.symm
    simp [he, ih h.2]

theorem nativeInit_token (p : Nat) (s : State) (am : Option Nat) (pa ba : Option String)
    (uv : Bool) : (nativeInit p s am pa ba uv).1 = ptrToJlong p := by
  cases pa <;> cases ba <;> rfl

theorem nativeInit_heap (p : Nat) (s : State) (am : Option Nat) (pa ba : Option String)
    (uv : Bool) (h : p ∉ s.live) :
    (nativeInit p s am pa ba uv).2.heap = (p, ⟨pa.getD "", ba.getD "", uv⟩) :: s.heap := by
  have hm := fun g => map_modify_fresh s.heap p g h
  cases pa <;> cases ba <;>
    simp [nativeInit, GetStringUTFChars, make_unique, charsOrEmpty, modify,
      ReleaseStringUTFChars, logd, hm, -List.map_map]

theorem nativeInit_lookup (p : Nat) (s : State) (am : Option Nat) (pa ba : Option String)
    (uv : Bool) :
    (nativeInit p s am pa ba uv).2.heap.lookup p = some ⟨pa.getD "", ba.getD "", uv⟩ := by
  cases pa <;> cases ba <;>
    simp [nativeInit, GetStringUTFChars, make_unique, charsOrEmpty, modify,
      ReleaseStringUTFChars, logd, -List.map_map]

theorem nativeInit_log (p : Nat) (s : State) (am : Option Nat) (pa ba : Option String)
    (uv : Bool) :
    (nativeInit p s am pa ba uv).2.log
      = s.log ++ [⟨ANDROID_LOG_DEBUG, kTag, "Initialized NCNN handle (stub)"⟩] := by
  cases pa <;> cases ba <;> rfl

theorem nativeInit_live (p : Nat) (s : State) (am : Option Nat) (pa ba : Option String)
    (uv : Bool) (h : p ∉ s.live) : (nativeInit p s am pa ba uv).2.live = p :: s.live := by
  simp [State.live, nativeInit_heap p s am pa ba uv h]

theorem nativeInit_WF (p : Nat) (s : State) (am : Option Nat) (pa ba : Option String)
    (uv : Bool) (hs : s.WF) (hp : NewOk s p) : (nativeInit p s am pa ba uv).2.WF := by
  obtain ⟨h0, h64, hfresh⟩ := hp
  unfold State.WF
  rw [nativeInit_live p s am pa ba uv hfresh]
  refine ⟨List.nodup_cons.mpr ⟨hfresh, hs.1⟩, ?_⟩
  intro q hq
  rcases List.mem_cons.mp hq with rfl | hq
  · exact ⟨h0, h64⟩
  · exact hs.2 q hq

theorem mem_tokens_iff (s : State) (hs : s.WF) (p : Nat) (hp : p < 2 ^ 64) :
    ptrToJlong p ∈ s.tokens ↔ p ∈ s.live := by
  unfold State.tokens
  constructor
  · intro h
    obtain ⟨q, hq, he⟩ := List.mem_map.mp h
    have := ptrToJlong_inj q p (hs.2 q hq).2 hp he
    exact this ▸ hq
  · intro h
    exact List.mem_map.mpr ⟨p, h, rfl⟩

theorem live_filter (heap : List (Nat × NcnnHandle)) (p : Nat) :
    (heap.filter fun e => e.1 ≠ p).map Prod.fst = (heap.map Prod.fst).filter fun q => q ≠ p := by
  induction heap with
  | nil => rfl
  | cons e es ih =>
    by_cases he : e.1 = p <;> simp_all [List.filter_cons]

theorem lookup_filter_ne (heap : List (Nat × NcnnHandle)) (p q : Nat) (h : q ≠ p) :
    (heap.filter fun e => e.1 ≠ p).lookup q = heap.lookup q := by
  induction heap with
  | nil => rfl
  | cons e es ih =>
    obtain ⟨a, b⟩ := e
    by_cases he : a = p
    · have hqa : (q == a) = false := by simpa [he] using h
      rw [List.filter_cons_of_neg (by simpa using he), List.lookup_cons, hqa]
      exact ih
    · rw [List.filter_cons_of_pos (by simpa using he), List.lookup_cons, List.lookup_cons, ih]

theorem lookup_filter_self (heap : List (Nat × NcnnHandle)) (p : Nat) :
    (heap.filter fun e => e.1 ≠ p).lookup p = none := by
  induction heap with
  | nil => rfl
  | cons e es ih =>
    obtain ⟨a, b⟩ := e
    by_cases he : a = p
    · rw [List.filter_cons_of_neg (by simpa using he)]
      exact ih
    · have hpa : (p == a) = false := by simpa using Ne.symm he
      rw [List.filter_cons_of_pos (by simpa using he), List.lookup_cons, hpa]
      exact ih

theorem nativeRelease_of_mem (s : State) (p : Nat) (h0 : p ≠ 0) (h64 : p < 2 ^ 64)
    (hp : p ∈ s.live) :
    nativeRelease s (ptrToJlong p)
      = some (logd { s with heap := s.heap.filter fun e => e.1 ≠ p }
          "Released NCNN handle (stub)") := by
  simp [nativeRelease, jlongToPtr_ptrToJlong p h64, h0, deleteHandle, hp]

theorem nativeRelease_of_live (s : State) (p : Nat) (hs : s.WF) (hp : p ∈ s.live) :
    nativeRelease s (ptrToJlong p)
      = some (logd { s with heap := s.heap.filter fun e => e.1 ≠ p }
          "Released NCNN handle (stub)") :=
  nativeRelease_of_mem s p (hs.2 p hp).1 (hs.2 p hp).2 hp

theorem filter_fresh (heap : List (Nat × NcnnHandle)) (p : Nat) (h : p ∉ heap.map Prod.fst) :
    (heap.filter fun e => e.1 ≠ p) = heap := by
  apply List.filter_eq_self.mpr
  intro e he
  have : e.1 ≠ p := fun h1 => h (h1 ▸ List.mem_map_of_mem Prod.fst he)
  simpa using this

theorem tokens_nodup (s : State) (hs : s.WF) : s.tokens.Nodup :=
  List.Nodup.map_on
    (fun x hx y hy h => ptrToJlong_inj x y (hs.2 x hx).2 (hs.2 y hy).2 h) hs.1

theorem nativeRelease_zero (s : State) : nativeRelease s 0 = some s := by
  simp [nativeRelease, jlongToPtr]

theorem nativeInit_jni (p : Nat) (s : State) (am : Option Nat) (pa ba : Option String)
    (uv : Bool) :
    (nativeInit p s am pa ba uv).2.jni
      = s.jni
        ++ ((if pa.isSome then [JniEvent.GetStringUTFChars .param_asset] else [])
        ++ (if ba.isSome then [JniEvent.GetStringUTFChars .bin_asset] else [])
        ++ (if pa.isSome then [JniEvent.copyChars .param_asset] else [])
        ++ (if ba.isSome then [JniEvent.copyChars .bin_asset] else [])
        ++ (if pa.isSome then [JniEvent.ReleaseStringUTFChars .param_asset] else [])
        ++ (if ba.isSome then [JniEvent.ReleaseStringUTFChars .bin_asset] else [])) := by
  cases pa <;> cases ba <;>
    simp [nativeInit, GetStringUTFChars, make_unique, charsOrEmpty, modify,
      ReleaseStringUTFChars, logd]

theorem mem_tokens_after_delete (s : State) (hs : s.WF) (p : Nat) (hp : p ∈ s.live) (T : Int) :
    T ∈ ((s.heap.filter fun e => e.1 ≠ p).map Prod.fst).map ptrToJlong
      ↔ T ∈ s.tokens ∧ T ≠ ptrToJlong p := by
  rw [live_filter]
  unfold State.tokens
  constructor
  · intro h
    obtain ⟨q, hq, rfl⟩ := List.mem_map.mp h
    obtain ⟨hq1, hq2⟩ := List.mem_filter.mp hq
    refine ⟨List.mem_map.mpr ⟨q, hq1, rfl⟩, fun he => ?_⟩
    have := ptrToJlong_inj q p (hs.2 q hq1).2 (hs.2 p hp).2 he
    simp [this] at hq2
  · rintro ⟨h, hne⟩
    obtain ⟨q, hq, rfl⟩ := List.mem_map.mp h
    refine List.mem_map.mpr ⟨q, List.mem_filter.mpr ⟨hq, ?_⟩, rfl⟩
    have : q ≠ p := fun he => hne (he ▸ rfl)
    simpa using this

theorem WF_after_delete (s : State) (hs : s.WF) (p : Nat) (msg : String) :
    (logd { s with heap := s.heap.filter fun e => e.1 ≠ p } msg).WF := by
  unfold State.WF State.live logd
  simp only [live_filter]
  exact ⟨hs.1.filter _, fun q hq => hs.2 q (List.mem_filter.mp hq).1⟩

theorem exists_live_of_mem_tokens (s : State) (T : Int) (h : T ∈ s.tokens) :
    ∃ p, p ∈ s.live ∧ ptrToJlong p = T :=
  List.mem_map.mp h

theorem zero_not_mem_tokens (s : State) (hs : s.WF) : (0 : Int) ∉ s.tokens := by
  intro h
  obtain ⟨p, hp, he⟩ := exists_live_of_mem_tokens s 0 h
  exact (hs.2 p hp).1 ((ptrToJlong_eq_zero_iff p (hs.2 p hp).2).mp he)

/-- One admissible call from a well-formed state: it is defined, keeps the state
well-formed, logs what the interface description says, and changes the live
tokens only by the token it closes or opens. -/
theorem step_spec (s : State) (c : Call) (hs : s.WF) (hc : callOk s c = true) :
    ∃ s1, step s c = some s1 ∧ s1.WF ∧ s1.log = s.log ++ c.logged ∧
      ∀ T, T ∈ s1.tokens ↔ (T ∈ s.tokens ∧ c.closes T = false) ∨ c.opens T = true := by
  cases c with
  | Open p am pa ba uv =>
    have hp : NewOk s p := by simpa [callOk] using hc
    refine ⟨_, rfl, nativeInit_WF p s am pa ba uv hs hp, nativeInit_log p s am pa ba uv, ?_⟩
    intro T
    simp only [State.tokens, nativeInit_live p s am pa ba uv hp.2.2, List.map_cons,
      List.mem_cons, Call.closes, Call.opens, decide_eq_true_eq, and_true]
    constructor
    · rintro (h | h)
      · exact Or.inr h.symm
      · exact Or.inl h
    · rintro (h | h)
      · exact Or.inr h
      · exact Or.inl h.symm
  | Close t =>
    have ht : t = 0 ∨ t ∈ s.tokens := by simpa [callOk] using hc
    by_cases hmem : t ∈ s.tokens
    · obtain ⟨p, hp, rfl⟩ := exists_live_of_mem_tokens s t hmem
      have h0 : ptrToJlong p ≠ 0 := fun h => zero_not_mem_tokens s hs (h ▸ hmem)
      refine ⟨_, nativeRelease_of_live s p hs hp, WF_after_delete s hs p _, ?_, ?_⟩
      · simp [logd, Call.logged, h0]
      · intro T
        have := mem_tokens_after_delete s hs p hp T
        simp only [State.tokens, State.live, logd] at this ⊢
        rw [this]
        simp only [Call.closes, Call.opens, decide_eq_false_iff_not, or_false, Bool.false_eq_true]
        exact ⟨fun h => ⟨h.1, fun he => h.2 he.symm⟩, fun h => ⟨h.1, fun he => h.2 he.symm⟩⟩
    · have h0 : t = 0 := ht.resolve_right hmem
      subst h0
      refine ⟨s, nativeRelease_zero s, hs, by simp [Call.logged], ?_⟩
      intro T
      simp only [Call.closes, Call.opens, decide_eq_false_iff_not, or_false, Bool.false_eq_true,
        iff_self_and]
      intro hT he
      exact hmem (he ▸ hT)
  | Run t i w h =>
    refine ⟨_, rfl, hs, by simp [nativeRun, NewFloatArray, Call.logged], ?_⟩
    intro T
    simp [nativeRun, NewFloatArray, State.tokens, State.live, Call.closes, Call.opens]

/-- An admissible sequence of calls from a well-formed state. -/
theorem run_spec (cs : List Call) :
    ∀ s : State, s.WF → admissible s cs = true →
      ∃ s1, run s cs = some s1 ∧ s1.WF ∧ s1.log = s.log ++ cs.flatMap Call.logged ∧
        ∀ T, T ∈ s1.tokens ↔ tokenLive T (decide (T ∈ s.tokens)) cs = true := by
  induction cs with
  | nil =>
    intro s hs _
    exact ⟨s, rfl, hs, by simp, fun T => by simp [tokenLive]⟩
  | cons c cs ih =>
    intro s hs hadm
    simp only [admissible, Bool.and_eq_true] at hadm
    obtain ⟨s1, h1, hwf1, hlog1, htok1⟩ := step_spec s c hs hadm.1
    have hadm1 : admissible s1 cs = true := by
      have := hadm.2
      rw [h1] at this
      exact this
    obtain ⟨s2, h2, hwf2, hlog2, htok2⟩ := ih s1 hwf1 hadm1
    refine ⟨s2, by simp [run, h1, h2], hwf2, by simp [hlog2, hlog1], ?_⟩
    intro T
    rw [htok2 T]
    simp only [tokenLive]
    have hb : decide (T ∈ s1.tokens)
        = ((decide (T ∈ s.tokens) && !c.closes T) || c.opens T) := by
      rw [Bool.eq_iff_iff]
      simp [htok1 T]
    rw [hb]

/-- Every state reached from the initial one by admissible calls is well-formed. -/
theorem WF_of_run (cs : List Call) (s1 : State) (hadm : admissible State.initial cs = true)
    (h : run State.initial cs = some s1) : s1.WF := by
  obtain ⟨s2, h2, hwf, _, _⟩ := run_spec cs State.initial (by decide) hadm
  rw [h] at h2
  exact (Option.some.inj h2) ▸ hwf

/-! ## The inference stub -/

/-- C1: for every state, every token (live, released or the zero sentinel), every
input buffer (absent or not) and every width and height, `nativeRun` returns an
array, and that array has length 0. -/
theorem nativeRun_returns_empty (s : State) (handle_ptr : Int) (input : Option (List Float))
    (width height : Int) :
    ∃ result, (nativeRun s handle_ptr input width height).1 = some result ∧ result.length = 0 :=
  ⟨[], rfl, rfl⟩

/-- C6: `nativeRun` leaves the live handles and their fields and the log as they
were, asks the `JNIEnv` for the empty result array and nothing else (no read of
the input array), and neither the array it returns nor the state it leaves
depends on the token, on the input buffer, on the dimensions or on what the
heap holds. -/
theorem nativeRun_frame (s : State) (handle_ptr : Int) (input : Option (List Float))
    (width height : Int) :
    (nativeRun s handle_ptr input width height).2.heap = s.heap ∧
    (nativeRun s handle_ptr input width height).2.log = s.log ∧
    (nativeRun s handle_ptr input width height).2.jni = s.jni ++ [JniEvent.NewFloatArray 0] ∧
    (∀ (handle_ptr1 : Int) (input1 : Option (List Float)) (width1 height1 : Int),
      nativeRun s handle_ptr1 input1 width1 height1
        = nativeRun s handle_ptr input width height) ∧
    (∀ heap1 : List (Nat × NcnnHandle),
      (nativeRun { s with heap := heap1 } handle_ptr input width height).1
        = (nativeRun s handle_ptr input width height).1) :=
  ⟨rfl, rfl, rfl, fun _ _ _ _ => rfl, fun _ => rfl⟩

/-! ## Creation -/

/-- C2: when `operator new` returns an address it may return, the handle that
the token returned by `nativeInit` addresses holds the parameter name (the empty
string when the name is null), the weights name (the empty string when null) and
the flag, and it is the one handle added to the heap; in particular two null
names and `false` give two empty strings and `false`. -/
theorem nativeInit_stores_arguments (s : State) (p : Nat) (asset_manager : Option Nat)
    (param_asset bin_asset : Option String) (use_vulkan : Bool) (hp : NewOk s p) :
    (nativeInit p s asset_manager param_asset bin_asset use_vulkan).2.handleOf
        (nativeInit p s asset_manager param_asset bin_asset use_vulkan).1
      = some ⟨param_asset.getD "", bin_asset.getD "", use_vulkan⟩ ∧
    (nativeInit p s asset_manager param_asset bin_asset use_vulkan).2.heap
      = (p, ⟨param_asset.getD "", bin_asset.getD "", use_vulkan⟩) :: s.heap ∧
    (nativeInit p s asset_manager none none false).2.handleOf
        (nativeInit p s asset_manager none none false).1
      = some ⟨"", "", false⟩ := by
  have key : ∀ (pa ba : Option String) (uv : Bool),
      (nativeInit p s asset_manager pa ba uv).2.handleOf
          (nativeInit p s asset_manager pa ba uv).1
        = some ⟨pa.getD "", ba.getD "", uv⟩ := by
    intro pa ba uv
    rw [nativeInit_token, State.handleOf, jlongToPtr_ptrToJlong p hp.2.1,
      nativeInit_heap p s asset_manager pa ba uv hp.2.2, List.lookup_cons_self]
  exact ⟨key _ _ _, nativeInit_heap p s asset_manager _ _ _ hp.2.2, key none none false⟩

/-- An instance of `nativeInit_stores_arguments`: a second handle at address 8192, with a null weights name. -/
theorem nativeInit_stores_arguments_witness :
    NewOk State.sample 8192 ∧
    ((nativeInit 8192 State.sample none (some "model.param") none true).2.handleOf
        (nativeInit 8192 State.sample none (some "model.param") none true).1
      = some ⟨(some "model.param").getD "", (none : Option String).getD "", true⟩ ∧
    (nativeInit 8192 State.sample none (some "model.param") none true).2.heap
      = (8192, ⟨(some "model.param").getD "", (none : Option String).getD "", true⟩)
          :: State.sample.heap ∧
    (nativeInit 8192 State.sample none none none false).2.handleOf
        (nativeInit 8192 State.sample none none none false).1
      = some ⟨"", "", false⟩) :=
  ⟨by decide,
   nativeInit_stores_arguments State.sample 8192 none (some "model.param") none true
     (by decide)⟩

/-- C3: from a well-formed heap, when `operator new` returns an address it may
return, the token `nativeInit` returns is not the zero sentinel and is not the
token of any live handle; the live tokens afterwards are that token and the
previous ones, and no two of them are equal. -/
theorem nativeInit_token_fresh (s : State) (p : Nat) (asset_manager : Option Nat)
    (param_asset bin_asset : Option String) (use_vulkan : Bool) (hs : s.WF) (hp : NewOk s p) :
    (nativeInit p s asset_manager param_asset bin_asset use_vulkan).1 ≠ 0 ∧
    (nativeInit p s asset_manager param_asset bin_asset use_vulkan).1 ∉ s.tokens ∧
    (nativeInit p s asset_manager param_asset bin_asset use_vulkan).2.tokens
      = (nativeInit p s asset_manager param_asset bin_asset use_vulkan).1 :: s.tokens ∧
    (nativeInit p s asset_manager param_asset bin_asset use_vulkan).2.tokens.Nodup := by
  rw [nativeInit_token]
  refine ⟨fun h => hp.1 ((ptrToJlong_eq_zero_iff p hp.2.1).mp h),
    fun h => hp.2.2 ((mem_tokens_iff s hs p hp.2.1).mp h), ?_,
    tokens_nodup _ (nativeInit_WF p s asset_manager param_asset bin_asset use_vulkan hs hp)⟩
  simp [State.tokens, nativeInit_live p s asset_manager param_asset bin_asset use_vulkan hp.2.2]

/-- An instance of `nativeInit_token_fresh`: a second handle at address 8192 next to the one at 4096. -/
theorem nativeInit_token_fresh_witness :
    State.sample.WF ∧ NewOk State.sample 8192 ∧
    ((nativeInit 8192 State.sample none (some "") none true).1 ≠ 0 ∧
    (nativeInit 8192 State.sample none (some "") none true).1 ∉ State.sample.tokens ∧
    (nativeInit 8192 State.sample none (some "") none true).2.tokens
      = (nativeInit 8192 State.sample none (some "") none true).1 :: State.sample.tokens ∧
    (nativeInit 8192 State.sample none (some "") none true).2.tokens.Nodup) :=
  ⟨by decide, by decide,
   nativeInit_token_fresh State.sample 8192 none (some "") none true (by decide) (by decide)⟩

/-- C9: in `nativeInit`, for each of the two names that is not null the events
about it are, in program order, exactly: its character buffer is obtained, the
characters are copied out of it, the buffer is released; about a null name
there is no event at all, so no buffer is obtained or released for it. Every
read and every release is of a buffer that is lent at that moment, and no
buffer is lent any more when `nativeInit` returns. The handle at the address
the returned token is cast from then holds, as its own `std::string` values,
the characters of each name (the empty string for a null name) and the flag:
what it stores is the copy, and nothing of it lies in a lent buffer. -/
theorem nativeInit_string_buffers (s : State) (p : Nat) (asset_manager : Option Nat)
    (param_asset bin_asset : Option String) (use_vulkan : Bool) :
    (nativeInit p s asset_manager param_asset bin_asset use_vulkan).1 = ptrToJlong p ∧
    (nativeInit p s asset_manager param_asset bin_asset use_vulkan).2.heap.lookup p
      = some ⟨param_asset.getD "", bin_asset.getD "", use_vulkan⟩ ∧
    ∃ tr, (nativeInit p s asset_manager param_asset bin_asset use_vulkan).2.jni = s.jni ++ tr ∧
      eventsOf .param_asset tr
        = (if param_asset.isSome then
            [.GetStringUTFChars .param_asset, .copyChars .param_asset,
             .ReleaseStringUTFChars .param_asset]
          else []) ∧
      eventsOf .bin_asset tr
        = (if bin_asset.isSome then
            [.GetStringUTFChars .bin_asset, .copyChars .bin_asset,
             .ReleaseStringUTFChars .bin_asset]
          else []) ∧
      tr.all (fun e => e.arg?.isSome) = true ∧
      lentAfter [] tr = some [] := by
  refine ⟨nativeInit_token p s asset_manager param_asset bin_asset use_vulkan,
    nativeInit_lookup p s asset_manager param_asset bin_asset use_vulkan,
    _, nativeInit_jni p s asset_manager param_asset bin_asset use_vulkan, ?_⟩
  cases param_asset <;> cases bin_asset <;> exact ⟨rfl, rfl, rfl, rfl⟩

/-! ## Release -/

/-- C4: `nativeRelease` of the zero sentinel is defined in every state and returns
the state it was given: the same live handles with the same fields, the same
log, the same `JNIEnv` trace. -/
theorem nativeRelease_null_noop (s : State) : nativeRelease s 0 = some s :=
  nativeRelease_zero s

/-- C5: from a well-formed heap, `nativeRelease` of a live token `T` is defined;
the heap afterwards is the previous one without the handle of `T`, so `T` is no
live token and addresses no handle, and every other live token stays live and
addresses the same handle with the same three fields. -/
theorem nativeRelease_removes_handle (s : State) (T : Int) (hs : s.WF) (hT : T ∈ s.tokens) :
    ∃ s1, nativeRelease s T = some s1 ∧
      s1.heap = (s.heap.filter fun e => ptrToJlong e.1 ≠ T) ∧
      T ∉ s1.tokens ∧ s1.handleOf T = none ∧
      ∀ T1, T1 ∈ s.tokens → T1 ≠ T → T1 ∈ s1.tokens ∧ s1.handleOf T1 = s.handleOf T1 := by
  obtain ⟨p, hp, rfl⟩ := exists_live_of_mem_tokens s T hT
  have h64 := (hs.2 p hp).2
  refine ⟨_, nativeRelease_of_live s p hs hp, ?_, ?_, ?_, ?_⟩
  · show (s.heap.filter fun e => e.1 ≠ p) = _
    apply List.filter_congr
    intro e he
    have he64 := (hs.2 e.1 (List.mem_map_of_mem Prod.fst he)).2
    have : e.1 = p ↔ ptrToJlong e.1 = ptrToJlong p :=
      ⟨fun h => h ▸ rfl, ptrToJlong_inj e.1 p he64 h64⟩
    simp [this]
  · intro h
    exact ((mem_tokens_after_delete s hs p hp _).mp h).2 rfl
  · show (s.heap.filter fun e => e.1 ≠ p).lookup (jlongToPtr (ptrToJlong p)) = none
    rw [jlongToPtr_ptrToJlong p h64]
    exact lookup_filter_self s.heap p
  · intro T1 hT1 hne
    obtain ⟨q, hq, rfl⟩ := exists_live_of_mem_tokens s T1 hT1
    refine ⟨(mem_tokens_after_delete s hs p hp _).mpr ⟨hT1, hne⟩, ?_⟩
    show (s.heap.filter fun e => e.1 ≠ p).lookup (jlongToPtr (ptrToJlong q))
      = s.heap.lookup (jlongToPtr (ptrToJlong q))
    rw [jlongToPtr_ptrToJlong q (hs.2 q hq).2]
    exact lookup_filter_ne s.heap p q fun h => hne (h ▸ rfl)

/-- An instance of `nativeRelease_removes_handle`: releasing the handle at 4096 of
`State.pair`, next to the live handle at 8192. -/
theorem nativeRelease_removes_handle_witness :
    State.pair.WF ∧ (4096 : Int) ∈ State.pair.tokens ∧
    ∃ s1, nativeRelease State.pair 4096 = some s1 ∧
      s1.heap = (State.pair.heap.filter fun e => ptrToJlong e.1 ≠ 4096) ∧
      (4096 : Int) ∉ s1.tokens ∧ s1.handleOf 4096 = none ∧
      ∀ T1, T1 ∈ State.pair.tokens → T1 ≠ 4096 →
        T1 ∈ s1.tokens ∧ s1.handleOf T1 = State.pair.handleOf T1 :=
  ⟨by decide, by decide, nativeRelease_removes_handle State.pair 4096 (by decide) (by decide)⟩

/-! ## Sequences of calls -/

/-- C7: from any state, when `operator new` returns an address it may return:
`nativeInit` with the names "model.param" and "model.bin" and the flag set
returns a token `T` that is not 0; `nativeRun` on `T`, four samples `1.0` and
dimensions 2 by 2 returns the empty array; `nativeRelease` of `T` then is
well defined, returns nothing but the state, and the heap is the one before
the scenario. -/
theorem open_run_close_scenario (s : State) (p : Nat) (ctx : Option Nat) (hp : NewOk s p) :
    ∃ T s1 s2 s3,
      nativeInit p s ctx (some "model.param") (some "model.bin") true = (T, s1) ∧ T ≠ 0 ∧
      nativeRun s1 T (some [1.0, 1.0, 1.0, 1.0]) 2 2 = (some [], s2) ∧
      nativeRelease s2 T = some s3 ∧ s3.heap = s.heap := by
  obtain ⟨h0, h64, hfresh⟩ := hp
  have hheap := nativeInit_heap p s ctx (some "model.param") (some "model.bin") true hfresh
  refine ⟨ptrToJlong p, _, _, _, rfl, fun h => h0 ((ptrToJlong_eq_zero_iff p h64).mp h), rfl,
    nativeRelease_of_mem _ p h0 h64 ?_, ?_⟩
  · show p ∈ List.map Prod.fst
      (nativeInit p s ctx (some "model.param") (some "model.bin") true).2.heap
    rw [hheap]
    exact List.mem_cons_self _ _
  · show (List.filter (fun e => decide (e.1 ≠ p))
      (nativeInit p s ctx (some "model.param") (some "model.bin") true).2.heap) = s.heap
    rw [hheap, List.filter_cons_of_neg (by simp)]
    exact filter_fresh s.heap p hfresh

/-- An instance of `open_run_close_scenario`: the scenario run next to the live handle of `State.sample`. -/
theorem open_run_close_scenario_witness :
    NewOk State.sample 8192 ∧
    ∃ T s1 s2 s3,
      nativeInit 8192 State.sample none (some "model.param") (some "model.bin") true = (T, s1) ∧
      T ≠ 0 ∧
      nativeRun s1 T (some [1.0, 1.0, 1.0, 1.0]) 2 2 = (some [], s2) ∧
      nativeRelease s2 T = some s3 ∧ s3.heap = State.sample.heap :=
  ⟨by decide, open_run_close_scenario State.sample 8192 none (by decide)⟩

/-- C8, as stated, fails: in the admissible sequence `Open`, `Close(4096)`, `Open`
from the initial state, in which `operator new` returns the freed address 4096
a second time, the token 4096 is live after the first call, not live after the
`Close` call on it, and live again after the third call. -/
theorem token_live_again_after_close :
    admissible State.initial
      [.Open 4096 none (some "a.param") (some "a.bin") false, .Close 4096,
       .Open 4096 none (some "b.param") (some "b.bin") true] = true ∧
    (∃ s1, run State.initial [.Open 4096 none (some "a.param") (some "a.bin") false] = some s1 ∧
      (4096 : Int) ∈ s1.tokens) ∧
    (∃ s2, run State.initial
        [.Open 4096 none (some "a.param") (some "a.bin") false, .Close 4096] = some s2 ∧
      (4096 : Int) ∉ s2.tokens) ∧
    (∃ s3, run State.initial
        [.Open 4096 none (some "a.param") (some "a.bin") false, .Close 4096,
         .Open 4096 none (some "b.param") (some "b.bin") true] = some s3 ∧
      (4096 : Int) ∈ s3.tokens ∧
      s3.handleOf 4096 = some ⟨"b.param", "b.bin", true⟩) := by
  refine ⟨by decide, ⟨_, rfl, by decide⟩, ⟨_, rfl, by decide⟩, ⟨_, rfl, by decide, by decide⟩⟩

/-- C8, amended: along every admissible sequence of calls from a well-formed state
every call is defined, and a token `T` is live afterwards exactly when the
two-state machine `tokenLive` says so: an `Open` call that returns `T` makes it
live, it stays live under every call other than `Close(T)`, `Close(T)` ends its
life, and it then stays not live under every call other than an `Open` that
returns `T` again. -/
theorem token_lifetime (s : State) (cs : List Call) (T : Int) (hs : s.WF)
    (hadm : admissible s cs = true) :
    ∃ s1, run s cs = some s1 ∧
      (T ∈ s1.tokens ↔ tokenLive T (decide (T ∈ s.tokens)) cs = true) := by
  obtain ⟨s1, h1, _, _, htok⟩ := run_spec cs s hs hadm
  exact ⟨s1, h1, htok T⟩

/-- An instance of `token_lifetime`: the token 4096 along an `Open`, a `Run` and two `Close` calls. -/
theorem token_lifetime_witness :
    State.sample.WF ∧
    admissible State.sample
      [.Open 8192 none none none false, .Run 8192 none 0 0, .Close 4096, .Close 0] = true ∧
    ∃ s1, run State.sample
        [.Open 8192 none none none false, .Run 8192 none 0 0, .Close 4096, .Close 0] = some s1 ∧
      ((4096 : Int) ∈ s1.tokens ↔
        tokenLive 4096 (decide ((4096 : Int) ∈ State.sample.tokens))
          [.Open 8192 none none none false, .Run 8192 none 0 0, .Close 4096, .Close 0] = true) :=
  ⟨by decide, by decide,
   token_lifetime State.sample
     [.Open 8192 none none none false, .Run 8192 none 0 0, .Close 4096, .Close 0] 4096
     (by decide) (by decide)⟩

/-- C10: along every admissible sequence of calls from a well-formed state every
call is defined, and the log afterwards is the log before followed by, in call
order, one "Initialized NCNN handle (stub)" debug entry under the tag
"BenchNcnn" for each `Open` and one "Released NCNN handle (stub)" entry for each
`Close` of a non-zero token, and nothing for a `Run` or a `Close(0)`. -/
theorem log_matches_calls (s : State) (cs : List Call) (hs : s.WF)
    (hadm : admissible s cs = true) :
    ∃ s1, run s cs = some s1 ∧ s1.log = s.log ++ cs.flatMap Call.logged := by
  obtain ⟨s1, h1, _, hlog, _⟩ := run_spec cs s hs hadm
  exact ⟨s1, h1, hlog⟩

/-- An instance of `log_matches_calls`: the scenario of the interface description followed from the initial state. -/
theorem log_matches_calls_witness :
    State.initial.WF ∧
    admissible State.initial
      [.Open 4096 none (some "model.param") (some "model.bin") true,
       .Run 4096 (some [1.0, 1.0, 1.0, 1.0]) 2 2, .Close 0, .Close 4096] = true ∧
    ∃ s1, run State.initial
        [.Open 4096 none (some "model.param") (some "model.bin") true,
         .Run 4096 (some [1.0, 1.0, 1.0, 1.0]) 2 2, .Close 0, .Close 4096] = some s1 ∧
      s1.log = State.initial.log ++
        List.flatMap
          [Call.Open 4096 none (some "model.param") (some "model.bin") true,
           Call.Run 4096 (some [1.0, 1.0, 1.0, 1.0]) 2 2, Call.Close 0, Call.Close 4096]
          Call.logged :=
  ⟨by decide, by decide,
   log_matches_calls State.initial
     [.Open 4096 none (some "model.param") (some "model.bin") true,
      .Run 4096 (some [1.0, 1.0, 1.0, 1.0]) 2 2, .Close 0, .Close 4096]
     (by decide) (by decide)⟩

end NcnnBridge
